import Mathlib

/-!
Verification of the caching / invalidation core of the ech0 repository layer.

The Go source embedded here is `internal/repository/echo` (the `EchoRepository`
methods `CreateEcho`, `GetEchosByPage`, `GetEchosById`, `DeleteEchoById`,
`UpdateEcho`, `LikeEcho`).  The generic cache store, the cache key builder
`GetEchoPageCacheKey` and the purge helper `ClearEchoPageCache` are only
referenced from that file; their bodies are modelled from the specification
(each such definition carries a `Modelled from the spec` doc comment).

Machine integers (`int`, `int64`, `uint`) are modelled as `Int`/`Nat`; none of
the embedded operations can overflow in the scenarios the claims quantify over,
so no modular reduction is applied.  Durable-store (gorm) calls are modelled as
pure functions of an explicit database value, with a `dbFail` flag injecting
the environmental failure of the mutating statement (`result.Error != nil`).
-/

set_option maxHeartbeats 1000000

namespace Ech0

/-! ## Key builder (modelled from the spec) -/

/-- A decimal digit character: `digitChar d` is the ASCII digit for `d < 10`. -/
def digitChar (d : Nat) : Char := Char.ofNat (d + 48)

/-- Fuel-driven decimal rendering of a natural number (most significant digit
first).  The fuel is structural so that the kernel can evaluate keys. -/
def natKeyAux : Nat → Nat → List Char
  | 0, _ => []
  | fuel + 1, n =>
    if n < 10 then [digitChar n]
    else natKeyAux fuel (n / 10) ++ [digitChar (n % 10)]

/-- Decimal rendering of a natural number. -/
def natKeyChars (n : Nat) : List Char := natKeyAux (n + 1) n

/-- Left inverse of `natKeyChars`: read a digit string back as a number. -/
def charsVal (l : List Char) : Nat :=
  l.foldl (fun a c => a * 10 + (c.toNat - 48)) 0

/-- Decimal rendering of an integer (a leading `-` for negatives). -/
def intKeyChars (i : Int) : List Char :=
  if i < 0 then '-' :: natKeyChars i.natAbs else natKeyChars i.toNat

/-- Rendering of a boolean, as Go's `strconv.FormatBool`. -/
def boolKeyChars (b : Bool) : List Char :=
  if b then ['t', 'r', 'u', 'e'] else ['f', 'a', 'l', 's', 'e']

/-- Modelled from the spec: `GetEchoPageCacheKey` is called at
src/unnamed/part_000 line 39 but its body is not under src/.  Spec section 4.2:
`BuildKey` is pure and deterministic, concatenating the descriptor fields
(page, pageSize, searchTerm, visibilityFilter) with an unambiguous delimiter,
the search term included verbatim. -/
def GetEchoPageCacheKey (page pageSize : Int) (search : String) (showPrivate : Bool) : String :=
  ⟨('e' :: 'c' :: 'h' :: 'o' :: '_' :: 'p' :: 'a' :: 'g' :: 'e' :: '_' :: intKeyChars page)
    ++ '_' :: (intKeyChars pageSize ++ '_' :: (search.data ++ '_' :: boolKeyChars showPrivate))⟩

/-! ## Cache store (modelled from the spec)

The generic cache behind `cache.ICache` is not under src/; it is modelled from
spec sections 3 and 4.1: a capacity/cost bounded associative store.  Entries
are kept oldest first and eviction drops the oldest entries until the new
entry fits (a documented, stable FIFO policy, as the spec permits). -/

/-- Error conditions of `CacheStore.Set` (spec sections 3 and 4.1). -/
inductive CacheSetError where
  | invalidCost
  | entryTooLarge
  deriving DecidableEq, Repr

/-- A resident cache entry: key, payload and its cost weight (spec section 3). -/
structure CacheEntry (V : Type) where
  key : String
  value : V
  cost : Nat
  deriving DecidableEq, Repr

/-- Modelled from the spec: the concurrency aspects of `CacheStore` are out of
scope of this shallow embedding; the store is its list of resident entries
(oldest first) plus its capacity budget. -/
structure CacheStore (V : Type) where
  entries : List (CacheEntry V)
  capacity : Nat
  deriving DecidableEq

/-- Sum of the costs of a list of entries. -/
def totalCost {V : Type} (l : List (CacheEntry V)) : Nat :=
  (l.map fun e => e.cost).sum

/-- Operation `Get`: lookup by key, `none` on a miss (spec section 4.1). -/
def CacheStore.Get {V : Type} (s : CacheStore V) (k : String) : Option V :=
  (s.entries.find? fun e => e.key == k).map fun e => e.value

/-- Drop oldest entries until an entry of cost `c` fits under `cap`. -/
def evictToFit {V : Type} : List (CacheEntry V) → Nat → Nat → List (CacheEntry V)
  | [], _, _ => []
  | e :: rest, c, cap =>
    if totalCost (e :: rest) + c ≤ cap then e :: rest
    else evictToFit rest c cap

/-- Operation `Set`: insert or replace, rejecting non-positive costs and entries whose
cost alone exceeds capacity, evicting oldest entries until the new entry fits
(spec sections 3 and 4.1). -/
def CacheStore.Set {V : Type} (s : CacheStore V) (k : String) (v : V) (cost : Int) :
    Except CacheSetError (CacheStore V) :=
  if cost ≤ 0 then .error .invalidCost
  else if s.capacity < cost.toNat then .error .entryTooLarge
  else
    let kept := s.entries.filter fun e => e.key != k
    .ok { s with entries := evictToFit kept cost.toNat s.capacity ++ [⟨k, v, cost.toNat⟩] }

/-- Operation `Delete`: idempotent removal by key (spec section 4.1). -/
def CacheStore.Delete {V : Type} (s : CacheStore V) (k : String) : CacheStore V :=
  { s with entries := s.entries.filter fun e => e.key != k }

/-- Operation `Clear`: drop all entries (spec section 4.1). -/
def CacheStore.ClearAll {V : Type} (s : CacheStore V) : CacheStore V :=
  { s with entries := [] }

/-! ## Data model (from `internal/model`) -/

/-- Model `model.Image`: an image row attached to an echo by `MessageID`. -/
structure Image where
  messageId : Nat
  url : String
  deriving DecidableEq, Repr

/-- Model `model.Echo`: the fields the repository reads or writes. -/
structure Echo where
  id : Nat
  content : String
  isPrivate : Bool
  favCount : Nat
  extensionVal : String
  extensionType : String
  createdAt : Nat
  images : List Image
  deriving DecidableEq, Repr

/-- Model `commonModel.PageQueryResult`: a page of items plus the total row count. -/
structure PageQueryResult (T : Type) where
  items : T
  total : Int
  deriving DecidableEq

/-- The durable store: the `echos` and `images` tables. -/
structure Db where
  echos : List Echo
  images : List Image
  deriving DecidableEq

/-- Repository-level errors surfaced by the embedded operations. -/
inductive RepoError where
  | dbError
  | recordNotFound
  | echoNotFound
  | invalidDescriptor
  deriving DecidableEq, Repr

/-- State of the repository: the database, the page cache, the global key list
`echoKeyList` (src/unnamed/part_000 line 75), and two instrumentation counters
recording how many durable-store page queries and cache lookups were issued. -/
structure RepoState where
  db : Db
  cache : CacheStore (PageQueryResult (List Echo))
  echoKeyList : List String
  dbQueryCount : Nat
  cacheGetCount : Nat
  deriving DecidableEq

/-! ## Query semantics (lines 37-83 of src/unnamed/part_000) -/

/-- Whether `pat` occurs at the start of `s`. -/
def leadsWith : List Char → List Char → Bool
  | [], _ => true
  | _ :: _, [] => false
  | p :: ps, c :: cs => p == c && leadsWith ps cs

/-- SQL `LIKE '%pat%'`: whether `pat` occurs as a contiguous substring. -/
def likeChars (pat : List Char) : List Char → Bool
  | [] => leadsWith pat []
  | c :: cs => leadsWith pat (c :: cs) || likeChars pat cs

/-- The WHERE clause built at lines 56-64: a fuzzy `content LIKE %search%`
filter when `search` is nonempty, and `private = false` unless `showPrivate`. -/
def matchesEchoQuery (search : String) (showPrivate : Bool) (e : Echo) : Bool :=
  (search == "" || likeChars search.data e.content.data) && (showPrivate || !e.isPrivate)

/-- Embedding of `Preload("Images")`: attach the image rows whose `message_id` matches. -/
def loadImages (db : Db) (e : Echo) : Echo :=
  { e with images := db.images.filter fun i => i.messageId == e.id }

/-- Comparison used by `Order("created_at DESC")`. -/
def byCreatedDesc (a b : Echo) : Prop := b.createdAt ≤ a.createdAt

instance : DecidableRel byCreatedDesc := fun a b => Nat.decLe b.createdAt a.createdAt

/-- Two's-complement wrap to a signed 64-bit value (9223372036854775808 is
2 to the 63rd, 18446744073709551616 is 2 to the 64th): Go's `int` arithmetic
at line 47 of src/unnamed/part_000 wraps on overflow. -/
def wrap64 (i : Int) : Int :=
  (i + 9223372036854775808) % 18446744073709551616 - 9223372036854775808

/-- The durable-store page query issued on a cache miss (lines 47-72):
count all matching rows, then select the window `LIMIT pageSize OFFSET
(page-1)*pageSize` ordered by `created_at DESC` with images preloaded.
The offset product is computed in Go `int` arithmetic, which wraps on
overflow (`wrap64`).  A non-positive offset or a negative limit cancels the
respective clause, as gorm does. -/
def dbQueryEchos (db : Db) (page pageSize : Int) (search : String) (showPrivate : Bool) :
    List Echo × Int :=
  let filtered := db.echos.filter (matchesEchoQuery search showPrivate)
  let total : Int := filtered.length
  let sorted := List.insertionSort byCreatedDesc filtered
  let offset := wrap64 (wrap64 (page - 1) * pageSize)
  let afterOffset := if 0 < offset then sorted.drop offset.toNat else sorted
  let windowed := if 0 ≤ pageSize then afterOffset.take pageSize.toNat else afterOffset
  (windowed.map (loadImages db), total)

/-! ## Repository operations (src/unnamed/part_000) -/

/-- Embedding of `GetEchosByPage` (lines 37-83): consult the cache under the built key; on a
hit return the cached page; on a miss query the durable store, append the key
to `echoKeyList` (line 75), best-effort `Set` the result with cost 1 (the
`Set` error is discarded, as the source discards it), and return the fresh
page. -/
def GetEchosByPage (s : RepoState) (page pageSize : Int) (search : String) (showPrivate : Bool) :
    (List Echo × Int) × RepoState :=
  match s.cache.Get (GetEchoPageCacheKey page pageSize search showPrivate) with
  | some cached =>
    ((cached.items, cached.total), { s with cacheGetCount := s.cacheGetCount + 1 })
  | none =>
    (dbQueryEchos s.db page pageSize search showPrivate,
     { s with
        cache :=
          match s.cache.Set (GetEchoPageCacheKey page pageSize search showPrivate)
              ⟨(dbQueryEchos s.db page pageSize search showPrivate).1,
                (dbQueryEchos s.db page pageSize search showPrivate).2⟩ 1 with
          | .ok c => c
          | .error _ => s.cache
        echoKeyList := s.echoKeyList ++ [GetEchoPageCacheKey page pageSize search showPrivate]
        dbQueryCount := s.dbQueryCount + 1
        cacheGetCount := s.cacheGetCount + 1 })

/-- Modelled from the spec: `ClearEchoPageCache` is called at
src/unnamed/part_000 lines 31, 114, 151 and 226 but its body is not under
src/.  Spec sections 4.3 and 6: the purge deletes every tracked key from the
store and then clears the tracked-key set. -/
def ClearEchoPageCache (cache : CacheStore (PageQueryResult (List Echo))) (keys : List String) :
    CacheStore (PageQueryResult (List Echo)) × List String :=
  (keys.foldl (fun c k => c.Delete k) cache, [])

/-- Go `strings.TrimSpace`, restricted to the ASCII whitespace the model's
`Char.isWhitespace` covers. -/
def trimSpace (s : String) : String :=
  ⟨((s.data.dropWhile Char.isWhitespace).reverse.dropWhile Char.isWhitespace).reverse⟩

/-- Embedding of `CreateEcho` (lines 23-34): trim the content, insert the row; on a durable
failure return the error without purging; on success purge the page cache. -/
def CreateEcho (dbFail : Bool) (e : Echo) (s : RepoState) : RepoState × Option RepoError :=
  let e' := { e with content := trimSpace e.content }
  if dbFail then (s, some .dbError)
  else
    let s1 := { s with db := { s.db with echos := s.db.echos ++ [e'] } }
    let pc := ClearEchoPageCache s1.cache s1.echoKeyList
    ({ s1 with cache := pc.1, echoKeyList := pc.2 }, none)

/-- Embedding of `DeleteEchoById` (lines 99-117): delete the attached images, then delete
the row; a durable failure or a zero-row delete returns an error without
purging; on success purge the page cache. -/
def DeleteEchoById (dbFail : Bool) (id : Nat) (s : RepoState) : RepoState × Option RepoError :=
  let s1 := { s with db := { s.db with images := s.db.images.filter fun i => i.messageId != id } }
  if dbFail then (s1, some .dbError)
  else if s1.db.echos.all fun e => e.id != id then (s1, some .recordNotFound)
  else
    let s2 := { s1 with db := { s1.db with echos := s1.db.echos.filter fun e => e.id != id } }
    let pc := ClearEchoPageCache s2.cache s2.echoKeyList
    ({ s2 with cache := pc.1, echoKeyList := pc.2 }, none)

/-- Embedding of `UpdateEcho` (lines 148-200): the source purges the page cache FIRST
(line 151), then runs the transaction (replace the images, update the content,
privacy and extension columns); a transaction failure rolls the database back
but the purge has already happened. -/
def UpdateEcho (dbFail : Bool) (e : Echo) (s : RepoState) : RepoState × Option RepoError :=
  let pc := ClearEchoPageCache s.cache s.echoKeyList
  let s1 := { s with cache := pc.1, echoKeyList := pc.2 }
  if dbFail then (s1, some .dbError)
  else
    let newImages := (s1.db.images.filter fun i => i.messageId != e.id)
      ++ e.images.map fun i => { i with messageId := e.id }
    let newEchos := s1.db.echos.map fun old =>
      if old.id == e.id then
        { old with content := e.content, isPrivate := e.isPrivate,
                   extensionVal := e.extensionVal, extensionType := e.extensionType }
      else old
    ({ s1 with db := ⟨newEchos, newImages⟩ }, none)

/-- Embedding of `LikeEcho` (lines 203-229): check existence, atomically increment
`fav_count`; a durable failure or a missing row returns an error without
purging; on success purge the page cache. -/
def LikeEcho (dbFail : Bool) (id : Nat) (s : RepoState) : RepoState × Option RepoError :=
  if dbFail then (s, some .dbError)
  else if s.db.echos.all fun e => e.id != id then (s, some .echoNotFound)
  else
    let s1 := { s with db := { s.db with echos := s.db.echos.map fun (e : Echo) =>
      if e.id == id then { e with favCount := e.favCount + 1 } else e } }
    let pc := ClearEchoPageCache s1.cache s1.echoKeyList
    ({ s1 with cache := pc.1, echoKeyList := pc.2 }, none)

/-- Embedding of `GetEchosById` (lines 86-97): `First` by primary key with images
preloaded; a missing row yields `(nil, nil)`, any other durable failure is
surfaced as a non-nil error. -/
def GetEchosById (dbFail : Bool) (id : Nat) (s : RepoState) : Option Echo × Option RepoError :=
  if dbFail then (none, some .dbError)
  else
    match s.db.echos.find? fun e => e.id == id with
    | some e => (some (loadImages s.db e), none)
    | none => (none, none)

/-- The four collection mutations of the repository. -/
inductive EchoMutation where
  | create (e : Echo)
  | deleteById (id : Nat)
  | update (e : Echo)
  | like (id : Nat)

/-- Dispatch a mutation. -/
def applyMutation (dbFail : Bool) (m : EchoMutation) (s : RepoState) : RepoState × Option RepoError :=
  match m with
  | .create e => CreateEcho dbFail e s
  | .deleteById id => DeleteEchoById dbFail id s
  | .update e => UpdateEcho dbFail e s
  | .like id => LikeEcho dbFail id s

/-- Modelled from the spec: the validating entry point `GetPage` of spec
sections 6 and 7 lives in the service layer, which is not under src/ (the
repository function `GetEchosByPage` itself performs no validation).  A
descriptor with `page <= 0` or `pageSize <= 0` is rejected with
`InvalidDescriptor` before the cache or the durable store is touched. -/
def GetPage (s : RepoState) (page pageSize : Int) (search : String) (showPrivate : Bool) :
    Except RepoError (List Echo × Int) × RepoState :=
  if page ≤ 0 || pageSize ≤ 0 then (.error .invalidDescriptor, s)
  else
    let r := GetEchosByPage s page pageSize search showPrivate
    (.ok r.1, r.2)

/-- The registry soundness invariant: every resident page-cache entry has its
key recorded in `echoKeyList`. -/
def trackedInv (s : RepoState) : Prop :=
  ∀ e ∈ s.cache.entries, e.key ∈ s.echoKeyList

/-! ## Cache store lemmas -/

theorem evictToFit_subset {V : Type} :
    ∀ (l : List (CacheEntry V)) (c cap : Nat) (x : CacheEntry V),
      x ∈ evictToFit l c cap → x ∈ l := by
  intro l
  induction l with
  | nil => intro c cap x h; simp [evictToFit] at h
  | cons e rest ih =>
    intro c cap x h
    rw [evictToFit] at h
    split at h
    · exact h
    · exact List.mem_cons_of_mem _ (ih c cap x h)

theorem totalCost_evictToFit {V : Type} :
    ∀ (l : List (CacheEntry V)) (c cap : Nat), c ≤ cap →
      totalCost (evictToFit l c cap) + c ≤ cap := by
  intro l
  induction l with
  | nil =>
    intro c cap h
    simpa [evictToFit, totalCost] using h
  | cons e rest ih =>
    intro c cap h
    rw [evictToFit]
    split
    · next hle => exact hle
    · exact ih c cap h

theorem totalCost_append {V : Type} (l1 l2 : List (CacheEntry V)) :
    totalCost (l1 ++ l2) = totalCost l1 + totalCost l2 := by
  simp [totalCost]

theorem Set_ok_shape {V : Type} (s : CacheStore V) (k : String) (v : V) (cost : Int)
    (s' : CacheStore V) (h : s.Set k v cost = .ok s') :
    ¬ cost ≤ 0 ∧ cost.toNat ≤ s.capacity ∧
      s'.entries = evictToFit (s.entries.filter fun e => e.key != k) cost.toNat s.capacity
        ++ [⟨k, v, cost.toNat⟩] ∧
      s'.capacity = s.capacity := by
  unfold CacheStore.Set at h
  split at h
  · exact absurd h (by simp)
  · split at h
    · exact absurd h (by simp)
    · next h1 h2 =>
      simp only [Except.ok.injEq] at h
      subst h
      exact ⟨h1, Nat.le_of_not_lt h2, rfl, rfl⟩

theorem Set_ok_totalCost {V : Type} (s : CacheStore V) (k : String) (v : V) (cost : Int)
    (s' : CacheStore V) (h : s.Set k v cost = .ok s') :
    totalCost s'.entries ≤ s'.capacity := by
  obtain ⟨-, hle, hent, hcap⟩ := Set_ok_shape s k v cost s' h
  rw [hent, hcap, totalCost_append]
  have := totalCost_evictToFit (s.entries.filter fun e => e.key != k) cost.toNat s.capacity hle
  simp only [totalCost, List.map_cons, List.map_nil, List.sum_cons, List.sum_nil] at *
  omega

theorem Set_entry_too_large {V : Type} (s : CacheStore V) (k : String) (v : V) (cost : Int)
    (h0 : 0 < cost) (h1 : s.capacity < cost.toNat) :
    s.Set k v cost = .error .entryTooLarge := by
  unfold CacheStore.Set
  rw [if_neg (by omega), if_pos h1]

theorem find?_append_of_all_false {α : Type} (p : α → Bool) :
    ∀ (l1 l2 : List α), (∀ x ∈ l1, p x = false) → List.find? p (l1 ++ l2) = List.find? p l2 := by
  intro l1
  induction l1 with
  | nil => intro l2 _; rfl
  | cons a l ih =>
    intro l2 h
    rw [List.cons_append, List.find?_cons_of_neg _ (by simp [h a (List.mem_cons_self a l)]),
      ih l2 (fun x hx => h x (List.mem_cons_of_mem a hx))]

theorem Get_Set_self {V : Type} (s : CacheStore V) (k : String) (v : V) (cost : Int)
    (s' : CacheStore V) (h : s.Set k v cost = .ok s') : s'.Get k = some v := by
  obtain ⟨-, -, hent, -⟩ := Set_ok_shape s k v cost s' h
  unfold CacheStore.Get
  rw [hent, find?_append_of_all_false]
  · rw [List.find?_cons_of_pos _ (by simp)]
    rfl
  · intro x hx
    have hx' := evictToFit_subset _ _ _ x hx
    have := (List.mem_filter.mp hx').2
    simpa using this

theorem Set_ok_capacity {V : Type} (s : CacheStore V) (k : String) (v : V) (cost : Int)
    (s' : CacheStore V) (h : s.Set k v cost = .ok s') : s'.capacity = s.capacity := by
  obtain ⟨-, -, -, hcap⟩ := Set_ok_shape s k v cost s' h
  exact hcap

theorem Set_one_ok {V : Type} (s : CacheStore V) (k : String) (v : V)
    (hcap : 1 ≤ s.capacity) : ∃ s', s.Set k v 1 = .ok s' := by
  unfold CacheStore.Set
  rw [if_neg (by omega), if_neg (by simp; omega)]
  exact ⟨_, rfl⟩

theorem Get_of_entries_nil {V : Type} (s : CacheStore V) (h : s.entries = []) (k : String) :
    s.Get k = none := by
  simp [CacheStore.Get, h]

theorem foldl_delete_entries_nil {V : Type} :
    ∀ (ks : List String) (c : CacheStore V), (∀ e ∈ c.entries, e.key ∈ ks) →
      (ks.foldl (fun a k => a.Delete k) c).entries = [] := by
  intro ks
  induction ks with
  | nil =>
    intro c h
    cases hc : c.entries with
    | nil => simpa [List.foldl] using hc
    | cons e rest =>
      have := h e (by rw [hc]; exact List.mem_cons_self e rest)
      simp at this
  | cons k ks ih =>
    intro c h
    rw [List.foldl_cons]
    apply ih
    intro e he
    simp only [CacheStore.Delete] at he
    have he' := (List.mem_filter.mp he).1
    have hkey : (e.key != k) = true := (List.mem_filter.mp he).2
    rcases List.mem_cons.mp (h e he') with h1 | h1
    · exact absurd h1 (by simpa using hkey)
    · exact h1

theorem foldl_delete_capacity {V : Type} :
    ∀ (ks : List String) (c : CacheStore V),
      (ks.foldl (fun a k => a.Delete k) c).capacity = c.capacity := by
  intro ks
  induction ks with
  | nil => intro c; rfl
  | cons k ks ih => intro c; rw [List.foldl_cons, ih]; rfl

/-! ## Key builder lemmas -/

theorem digitChar_toNat (d : Nat) (h : d < 10) : (digitChar d).toNat = d + 48 := by
  interval_cases d <;> rfl

theorem natKeyAux_toNat_bounds :
    ∀ (fuel n : Nat), ∀ c ∈ natKeyAux fuel n, 48 ≤ c.toNat ∧ c.toNat < 58 := by
  intro fuel
  induction fuel with
  | zero => intro n c hc; simp [natKeyAux] at hc
  | succ f ih =>
    intro n c hc
    rw [natKeyAux] at hc
    split at hc
    · next h =>
      simp only [List.mem_singleton] at hc
      subst hc
      rw [digitChar_toNat n h]
      omega
    · next h =>
      rcases List.mem_append.mp hc with h1 | h1
      · exact ih (n / 10) c h1
      · simp only [List.mem_singleton] at h1
        subst h1
        rw [digitChar_toNat (n % 10) (Nat.mod_lt n (by omega))]
        omega

theorem charsVal_natKeyAux : ∀ (fuel n : Nat), n < fuel → charsVal (natKeyAux fuel n) = n := by
  intro fuel
  induction fuel with
  | zero => intro n h; omega
  | succ f ih =>
    intro n h
    rw [natKeyAux]
    split
    · next h10 =>
      simp only [charsVal, List.foldl_cons, List.foldl_nil, Nat.zero_mul, Nat.zero_add]
      rw [digitChar_toNat n h10]
      omega
    · next h10 =>
      have hge : 10 ≤ n := by omega
      have hlt : n / 10 < f := by
        have : n / 10 < n := Nat.div_lt_self (by omega) (by omega)
        omega
      rw [charsVal, List.foldl_append]
      have hih := ih (n / 10) hlt
      rw [charsVal] at hih
      rw [hih]
      simp only [List.foldl_cons, List.foldl_nil]
      rw [digitChar_toNat (n % 10) (Nat.mod_lt n (by omega))]
      omega

theorem natKeyChars_inj {m n : Nat} (h : natKeyChars m = natKeyChars n) : m = n := by
  have h1 := charsVal_natKeyAux (m + 1) m (by omega)
  have h2 := charsVal_natKeyAux (n + 1) n (by omega)
  simp only [natKeyChars] at h
  rw [h] at h1
  omega

theorem underscore_not_mem_natKeyChars (n : Nat) : '_' ∉ natKeyChars n := by
  intro h
  have := natKeyAux_toNat_bounds (n + 1) n '_' h
  revert this
  decide

theorem dash_not_mem_natKeyChars (n : Nat) : '-' ∉ natKeyChars n := by
  intro h
  have := natKeyAux_toNat_bounds (n + 1) n '-' h
  revert this
  decide

theorem natKeyChars_ne_nil (n : Nat) : natKeyChars n ≠ [] := by
  rw [natKeyChars, natKeyAux]
  split
  · simp
  · simp

theorem underscore_not_mem_intKeyChars (i : Int) : '_' ∉ intKeyChars i := by
  rw [intKeyChars]
  split
  · intro h
    rcases List.mem_cons.mp h with h1 | h1
    · exact absurd h1 (by decide)
    · exact underscore_not_mem_natKeyChars _ h1
  · exact underscore_not_mem_natKeyChars _

theorem intKeyChars_inj {i j : Int} (h : intKeyChars i = intKeyChars j) : i = j := by
  rw [intKeyChars, intKeyChars] at h
  split at h <;> split at h
  · next hi hj =>
    simp only [List.cons.injEq, true_and] at h
    have := natKeyChars_inj h
    omega
  · next hi hj =>
    exfalso
    apply dash_not_mem_natKeyChars j.toNat
    rw [← h]
    exact List.mem_cons_self _ _
  · next hi hj =>
    exfalso
    apply dash_not_mem_natKeyChars i.toNat
    rw [h]
    exact List.mem_cons_self _ _
  · next hi hj =>
    have := natKeyChars_inj h
    omega

theorem boolKeyChars_inj {a b : Bool} (h : boolKeyChars a = boolKeyChars b) : a = b := by
  cases a <;> cases b <;> revert h <;> decide

theorem underscore_not_mem_boolKeyChars (b : Bool) : '_' ∉ boolKeyChars b := by
  cases b <;> decide

theorem append_sep_inj {sep : Char} :
    ∀ (a c : List Char) {b d : List Char}, sep ∉ a → sep ∉ c →
      a ++ sep :: b = c ++ sep :: d → a = c ∧ b = d := by
  intro a
  induction a with
  | nil =>
    intro c b d _ hc h
    cases c with
    | nil => simpa using h
    | cons x xs =>
      exfalso
      simp only [List.nil_append, List.cons_append, List.cons.injEq] at h
      apply hc
      rw [← h.1]
      exact List.mem_cons_self _ _
  | cons y ys ih =>
    intro c b d ha hc h
    cases c with
    | nil =>
      exfalso
      simp only [List.cons_append, List.nil_append, List.cons.injEq] at h
      apply ha
      rw [h.1]
      exact List.mem_cons_self _ _
    | cons x xs =>
      simp only [List.cons_append, List.cons.injEq] at h
      obtain ⟨rfl, h2⟩ := h
      have hrec := ih xs (fun hm => ha (List.mem_cons_of_mem _ hm))
        (fun hm => hc (List.mem_cons_of_mem _ hm)) h2
      exact ⟨by rw [hrec.1], hrec.2⟩

theorem sep_append_inj_right {sep : Char} (a c : List Char) {b d : List Char}
    (hb : sep ∉ b) (hd : sep ∉ d) (h : a ++ sep :: b = c ++ sep :: d) : a = c ∧ b = d := by
  have hrev : b.reverse ++ sep :: a.reverse = d.reverse ++ sep :: c.reverse := by
    have hr := congrArg List.reverse h
    simpa [List.reverse_append] using hr
  obtain ⟨h1, h2⟩ := append_sep_inj _ _ (by simpa using hb) (by simpa using hd) hrev
  constructor
  · have := congrArg List.reverse h2
    simpa using this
  · have := congrArg List.reverse h1
    simpa using this

theorem GetEchoPageCacheKey_inj {p1 ps1 : Int} {s1 : String} {v1 : Bool}
    {p2 ps2 : Int} {s2 : String} {v2 : Bool}
    (h : GetEchoPageCacheKey p1 ps1 s1 v1 = GetEchoPageCacheKey p2 ps2 s2 v2) :
    p1 = p2 ∧ ps1 = ps2 ∧ s1 = s2 ∧ v1 = v2 := by
  have hd := congrArg String.data h
  simp only [GetEchoPageCacheKey, List.cons_append, List.cons.injEq, true_and] at hd
  obtain ⟨hp, hrest⟩ := append_sep_inj _ _ (underscore_not_mem_intKeyChars p1)
    (underscore_not_mem_intKeyChars p2) hd
  obtain ⟨hps, hrest2⟩ := append_sep_inj _ _ (underscore_not_mem_intKeyChars ps1)
    (underscore_not_mem_intKeyChars ps2) hrest
  obtain ⟨hs, hv⟩ := sep_append_inj_right _ _ (underscore_not_mem_boolKeyChars v1)
    (underscore_not_mem_boolKeyChars v2) hrest2
  refine ⟨intKeyChars_inj hp, intKeyChars_inj hps, ?_, boolKeyChars_inj hv⟩
  cases s1
  cases s2
  exact congrArg String.mk (by simpa using hs)

theorem GetEchoPageCacheKey_ne_of_page_ne {p1 p2 ps : Int} {s : String} {v : Bool}
    (h : p1 ≠ p2) : GetEchoPageCacheKey p1 ps s v ≠ GetEchoPageCacheKey p2 ps s v := by
  intro heq
  exact h (GetEchoPageCacheKey_inj heq).1

/-! ## Claim C7 -/

/-- C7: the cache-key construction is deterministic and injective on
descriptors: two descriptors map to the same key string exactly when their
page, pageSize, searchTerm and visibility fields all coincide. -/
theorem C7_key_deterministic_injective :
    ∀ (p1 ps1 : Int) (s1 : String) (v1 : Bool) (p2 ps2 : Int) (s2 : String) (v2 : Bool),
      GetEchoPageCacheKey p1 ps1 s1 v1 = GetEchoPageCacheKey p2 ps2 s2 v2 ↔
        (p1 = p2 ∧ ps1 = ps2 ∧ s1 = s2 ∧ v1 = v2) := by
  intro p1 ps1 s1 v1 p2 ps2 s2 v2
  constructor
  · exact GetEchoPageCacheKey_inj
  · rintro ⟨rfl, rfl, rfl, rfl⟩
    rfl

/-! ## Claim C4 -/

/-- C4: for every `Set` on the cache store, the sum of the costs of resident
entries never exceeds the configured capacity (entries are evicted until the
new entry fits), and a single entry whose cost alone exceeds total capacity
makes `Set` fail with the entry-too-large condition, leaving the cache
unmodified (the error return carries no new store). -/
theorem C4_capacity_bound :
    (∀ (V : Type) (s : CacheStore V) (k : String) (v : V) (cost : Int) (s' : CacheStore V),
        s.Set k v cost = .ok s' → totalCost s'.entries ≤ s'.capacity) ∧
    (∀ (V : Type) (s : CacheStore V) (k : String) (v : V) (cost : Int),
        0 < cost → s.capacity < cost.toNat → s.Set k v cost = .error .entryTooLarge) :=
  ⟨fun _ s k v cost s' h => Set_ok_totalCost s k v cost s' h,
   fun _ s k v cost h0 h1 => Set_entry_too_large s k v cost h0 h1⟩

/-- Witness for C4 at concrete inputs: inserting a second unit-cost entry into
a capacity-1 store evicts the first and stays within capacity, and a cost-2
entry is rejected by the same store. -/
theorem C4_capacity_bound_witness :
    (({ entries := [⟨"a", 7, 1⟩], capacity := 1 } : CacheStore Nat).Set "b" 8 1
        = .ok ({ entries := [⟨"b", 8, 1⟩], capacity := 1 } : CacheStore Nat)) ∧
    totalCost ({ entries := [⟨"b", 8, 1⟩], capacity := 1 } : CacheStore Nat).entries
        ≤ ({ entries := [⟨"b", 8, 1⟩], capacity := 1 } : CacheStore Nat).capacity ∧
    ((0 : Int) < 2 ∧ ({ entries := [⟨"a", 7, 1⟩], capacity := 1 } : CacheStore Nat).capacity
        < (2 : Int).toNat) ∧
    ({ entries := [⟨"a", 7, 1⟩], capacity := 1 } : CacheStore Nat).Set "c" 9 2
        = .error .entryTooLarge := by
  have h1 : ({ entries := [⟨"a", 7, 1⟩], capacity := 1 } : CacheStore Nat).Set "b" 8 1
      = .ok ({ entries := [⟨"b", 8, 1⟩], capacity := 1 } : CacheStore Nat) := by rfl
  exact ⟨h1, C4_capacity_bound.1 Nat _ "b" 8 1 _ h1, ⟨by decide, by decide⟩,
    C4_capacity_bound.2 Nat _ "c" 9 2 (by decide) (by decide)⟩

/-! ## Claim C8 -/

/-- C8: a paginated read with `page <= 0` or `pageSize <= 0` is rejected with
the invalid-descriptor error before the cache or the durable store is touched:
the returned state is the input state, unchanged (in particular neither
instrumentation counter moves). -/
theorem C8_invalid_descriptor_rejected :
    ∀ (s : RepoState) (page pageSize : Int) (search : String) (showPrivate : Bool),
      page ≤ 0 ∨ pageSize ≤ 0 →
      GetPage s page pageSize search showPrivate = (.error .invalidDescriptor, s) := by
  intro s page pageSize search showPrivate h
  rcases h with h | h <;> simp [GetPage, h]

/-- Witness for C8: the descriptor `page = 0, pageSize = 10` is rejected and
the state survives untouched. -/
theorem C8_invalid_descriptor_rejected_witness :
    ((0 : Int) ≤ 0 ∨ (10 : Int) ≤ 0) ∧
    GetPage ⟨⟨[], []⟩, ⟨[], 10⟩, [], 0, 0⟩ 0 10 "" false
      = (.error .invalidDescriptor, ⟨⟨[], []⟩, ⟨[], 10⟩, [], 0, 0⟩) :=
  ⟨Or.inl (by decide),
   C8_invalid_descriptor_rejected ⟨⟨[], []⟩, ⟨[], 10⟩, [], 0, 0⟩ 0 10 "" false
     (Or.inl (by decide))⟩

/-! ## Claim C10 -/

/-- C10: `GetEchosById` maps a missing row to `(nil, nil)` (not-found is not
surfaced as an error), while a durable-store failure is surfaced as a non-nil
error with no echo. -/
theorem C10_get_by_id_error_contract :
    ∀ (s : RepoState) (id : Nat),
      ((∀ e ∈ s.db.echos, e.id ≠ id) → GetEchosById false id s = (none, none)) ∧
      GetEchosById true id s = (none, some .dbError) := by
  intro s id
  constructor
  · intro h
    have hfind : s.db.echos.find? (fun e => e.id == id) = none := by
      rw [List.find?_eq_none]
      intro x hx
      simpa using h x hx
    simp [GetEchosById, hfind]
  · rfl

/-- Witness for C10: a store holding only echo id 1 yields `(none, none)` for
id 2, and an injected durable failure yields a non-nil error. -/
theorem C10_get_by_id_error_contract_witness :
    (∀ e ∈ (⟨⟨[⟨1, "hi", false, 0, "", "", 5, []⟩], []⟩, ⟨[], 10⟩, [], 0, 0⟩ : RepoState).db.echos,
        e.id ≠ 2) ∧
    GetEchosById false 2 ⟨⟨[⟨1, "hi", false, 0, "", "", 5, []⟩], []⟩, ⟨[], 10⟩, [], 0, 0⟩
      = (none, none) ∧
    GetEchosById true 2 ⟨⟨[⟨1, "hi", false, 0, "", "", 5, []⟩], []⟩, ⟨[], 10⟩, [], 0, 0⟩
      = (none, some .dbError) :=
  ⟨by decide,
   (C10_get_by_id_error_contract ⟨⟨[⟨1, "hi", false, 0, "", "", 5, []⟩], []⟩, ⟨[], 10⟩, [], 0, 0⟩ 2).1
     (by decide),
   (C10_get_by_id_error_contract ⟨⟨[⟨1, "hi", false, 0, "", "", 5, []⟩], []⟩, ⟨[], 10⟩, [], 0, 0⟩ 2).2⟩

/-! ## Trimming lemmas and claim C9 -/

theorem dropWhile_append_all {α : Type} (p : α → Bool) :
    ∀ (l1 l2 : List α), (∀ x ∈ l1, p x = true) →
      List.dropWhile p (l1 ++ l2) = List.dropWhile p l2 := by
  intro l1
  induction l1 with
  | nil => intro l2 _; rfl
  | cons a l ih =>
    intro l2 h
    rw [List.cons_append, List.dropWhile_cons_of_pos (h a (List.mem_cons_self a l)),
      ih l2 (fun x hx => h x (List.mem_cons_of_mem a hx))]

theorem dropWhile_append_of_cons {α : Type} (p : α → Bool) :
    ∀ (l1 l2 : List α) (y : α) (ys : List α), List.dropWhile p l1 = y :: ys →
      List.dropWhile p (l1 ++ l2) = y :: (ys ++ l2) := by
  intro l1
  induction l1 with
  | nil => intro l2 y ys h; simp at h
  | cons a l ih =>
    intro l2 y ys h
    rw [List.cons_append]
    by_cases hp : p a = true
    · rw [List.dropWhile_cons_of_pos hp] at h
      rw [List.dropWhile_cons_of_pos hp]
      exact ih l2 y ys h
    · rw [List.dropWhile_cons_of_neg hp] at h
      rw [List.dropWhile_cons_of_neg hp]
      obtain ⟨rfl, rfl⟩ : a = y ∧ l = ys := by
        simpa using h
      rfl

theorem trimList_frame (ws1 c ws2 : List Char)
    (h1 : ∀ x ∈ ws1, x.isWhitespace = true) (h2 : ∀ x ∈ ws2, x.isWhitespace = true) :
    (((ws1 ++ c ++ ws2).dropWhile Char.isWhitespace).reverse.dropWhile Char.isWhitespace).reverse
      = ((c.dropWhile Char.isWhitespace).reverse.dropWhile Char.isWhitespace).reverse := by
  rw [List.append_assoc, dropWhile_append_all _ ws1 _ h1]
  cases hc : c.dropWhile Char.isWhitespace with
  | nil =>
    have hcall : ∀ x ∈ c, Char.isWhitespace x = true := List.dropWhile_eq_nil_iff.mp hc
    rw [dropWhile_append_all _ c _ hcall]
    have hws2 : ws2.dropWhile Char.isWhitespace = [] := List.dropWhile_eq_nil_iff.mpr h2
    rw [hws2]
  | cons y ys =>
    rw [dropWhile_append_of_cons _ c ws2 y ys hc]
    have hsplit : (y :: (ys ++ ws2)).reverse = ws2.reverse ++ (y :: ys).reverse := by
      simp
    rw [hsplit, dropWhile_append_all _ ws2.reverse _
      (fun x hx => h2 x (List.mem_reverse.mp hx))]

theorem trimSpace_frame (c : String) (ws1 ws2 : List Char)
    (h1 : ∀ x ∈ ws1, x.isWhitespace = true) (h2 : ∀ x ∈ ws2, x.isWhitespace = true) :
    trimSpace ⟨ws1 ++ c.data ++ ws2⟩ = trimSpace c :=
  congrArg String.mk (trimList_frame ws1 c.data ws2 h1 h2)

/-- C9: `CreateEcho` stores the input content with surrounding whitespace
removed, so two echoes whose contents differ only in surrounding whitespace
are stored with identical content. -/
theorem C9_create_trims_content :
    ∀ (s : RepoState) (e e' : Echo) (ws1 ws2 : List Char),
      e'.content.data = ws1 ++ e.content.data ++ ws2 →
      (∀ x ∈ ws1, x.isWhitespace = true) → (∀ x ∈ ws2, x.isWhitespace = true) →
      ((CreateEcho false e s).1.db.echos.map fun x => x.content)
          = (s.db.echos.map fun x => x.content) ++ [trimSpace e.content] ∧
      ((CreateEcho false e' s).1.db.echos.map fun x => x.content)
          = (s.db.echos.map fun x => x.content) ++ [trimSpace e.content] := by
  intro s e e' ws1 ws2 heq h1 h2
  have hframe : trimSpace e'.content = trimSpace e.content := by
    have he' : e'.content = ⟨ws1 ++ e.content.data ++ ws2⟩ := by
      cases hcc : e'.content
      rw [hcc] at heq
      exact congrArg String.mk heq
    rw [he']
    exact trimSpace_frame e.content ws1 ws2 h1 h2
  constructor
  · simp [CreateEcho]
  · simp [CreateEcho, hframe]

/-- Witness for C9: creating an echo with content `" hi "` stores the same
content as creating one with content `"hi"`. -/
theorem C9_create_trims_content_witness :
    ((" hi " : String).data = [' '] ++ ("hi" : String).data ++ [' ']) ∧
    (∀ x ∈ [' '], Char.isWhitespace x = true) ∧
    ((CreateEcho false ⟨1, "hi", false, 0, "", "", 5, []⟩
        ⟨⟨[], []⟩, ⟨[], 10⟩, [], 0, 0⟩).1.db.echos.map fun x => x.content)
      = [trimSpace "hi"] ∧
    ((CreateEcho false ⟨2, " hi ", false, 0, "", "", 6, []⟩
        ⟨⟨[], []⟩, ⟨[], 10⟩, [], 0, 0⟩).1.db.echos.map fun x => x.content)
      = [trimSpace "hi"] := by
  have h := C9_create_trims_content ⟨⟨[], []⟩, ⟨[], 10⟩, [], 0, 0⟩
    ⟨1, "hi", false, 0, "", "", 5, []⟩ ⟨2, " hi ", false, 0, "", "", 6, []⟩
    [' '] [' '] (by decide) (by decide) (by decide)
  exact ⟨by decide, by decide, by simpa using h.1, by simpa using h.2⟩

/-! ## Shape lemmas for the read path -/

theorem GetEchosByPage_hit_shape (s : RepoState) (page pageSize : Int) (search : String)
    (showPrivate : Bool) (v : PageQueryResult (List Echo))
    (hhit : s.cache.Get (GetEchoPageCacheKey page pageSize search showPrivate) = some v) :
    GetEchosByPage s page pageSize search showPrivate
      = ((v.items, v.total), { s with cacheGetCount := s.cacheGetCount + 1 }) := by
  unfold GetEchosByPage
  rw [hhit]

theorem GetEchosByPage_miss_shape (s : RepoState) (page pageSize : Int) (search : String)
    (showPrivate : Bool)
    (hmiss : s.cache.Get (GetEchoPageCacheKey page pageSize search showPrivate) = none) :
    GetEchosByPage s page pageSize search showPrivate
      = (dbQueryEchos s.db page pageSize search showPrivate,
         { s with
            cache :=
              match s.cache.Set (GetEchoPageCacheKey page pageSize search showPrivate)
                  ⟨(dbQueryEchos s.db page pageSize search showPrivate).1,
                    (dbQueryEchos s.db page pageSize search showPrivate).2⟩ 1 with
              | .ok c => c
              | .error _ => s.cache
            echoKeyList := s.echoKeyList ++ [GetEchoPageCacheKey page pageSize search showPrivate]
            dbQueryCount := s.dbQueryCount + 1
            cacheGetCount := s.cacheGetCount + 1 }) := by
  unfold GetEchosByPage
  rw [hmiss]

theorem GetEchosByPage_db (s : RepoState) (page pageSize : Int) (search : String)
    (showPrivate : Bool) :
    (GetEchosByPage s page pageSize search showPrivate).2.db = s.db := by
  unfold GetEchosByPage
  cases hget : s.cache.Get (GetEchoPageCacheKey page pageSize search showPrivate) <;> rfl

theorem GetEchosByPage_of_empty_cache (s : RepoState) (h : s.cache.entries = [])
    (page pageSize : Int) (search : String) (showPrivate : Bool) :
    (GetEchosByPage s page pageSize search showPrivate).1
      = dbQueryEchos s.db page pageSize search showPrivate := by
  have hmiss : s.cache.Get (GetEchoPageCacheKey page pageSize search showPrivate) = none :=
    Get_of_entries_nil s.cache h _
  rw [GetEchosByPage_miss_shape s page pageSize search showPrivate hmiss]

theorem trackedInv_GetEchosByPage (s : RepoState) (page pageSize : Int) (search : String)
    (showPrivate : Bool) (hinv : trackedInv s) :
    trackedInv (GetEchosByPage s page pageSize search showPrivate).2 := by
  unfold trackedInv
  cases hget : s.cache.Get (GetEchoPageCacheKey page pageSize search showPrivate) with
  | some v =>
    rw [GetEchosByPage_hit_shape s page pageSize search showPrivate v hget]
    exact hinv
  | none =>
    rw [GetEchosByPage_miss_shape s page pageSize search showPrivate hget]
    cases hset : s.cache.Set (GetEchoPageCacheKey page pageSize search showPrivate)
        ⟨(dbQueryEchos s.db page pageSize search showPrivate).1,
          (dbQueryEchos s.db page pageSize search showPrivate).2⟩ 1 with
    | ok c =>
      simp only [hset]
      intro e he
      obtain ⟨-, -, hent, -⟩ := Set_ok_shape _ _ _ _ _ hset
      rw [hent] at he
      rcases List.mem_append.mp he with h1 | h1
      · have h2 := evictToFit_subset _ _ _ _ h1
        have h3 := (List.mem_filter.mp h2).1
        exact List.mem_append_left _ (hinv e h3)
      · simp only [List.mem_singleton] at h1
        subst h1
        exact List.mem_append_right _ (List.mem_cons_self _ _)
    | error err =>
      simp only [hset]
      intro e he
      exact List.mem_append_left _ (hinv e he)

/-! ## Purge-on-success lemma for the write path -/

theorem mutation_ok_purges (m : EchoMutation) (s : RepoState) (hinv : trackedInv s)
    (hok : (applyMutation false m s).2 = none) :
    (applyMutation false m s).1.cache.entries = [] ∧
      (applyMutation false m s).1.echoKeyList = [] := by
  cases m with
  | create e =>
    simp only [applyMutation, CreateEcho, Bool.false_eq_true, if_false]
    exact ⟨foldl_delete_entries_nil _ _ hinv, rfl⟩
  | deleteById id =>
    by_cases hcond : (s.db.echos.all fun e => e.id != id) = true
    · exfalso
      simp [applyMutation, DeleteEchoById, hcond] at hok
    · simp only [applyMutation, DeleteEchoById, Bool.false_eq_true, if_false, hcond]
      exact ⟨foldl_delete_entries_nil _ _ hinv, rfl⟩
  | update e =>
    simp only [applyMutation, UpdateEcho, Bool.false_eq_true, if_false]
    exact ⟨foldl_delete_entries_nil _ _ hinv, rfl⟩
  | like id =>
    by_cases hcond : (s.db.echos.all fun e => e.id != id) = true
    · exfalso
      simp [applyMutation, LikeEcho, hcond] at hok
    · simp only [applyMutation, LikeEcho, Bool.false_eq_true, if_false, hcond]
      exact ⟨foldl_delete_entries_nil _ _ hinv, rfl⟩

/-! ## Shape lemmas for the durable-store query -/

theorem dbQueryEchos_total (db : Db) (page pageSize : Int) (search : String)
    (showPrivate : Bool) :
    (dbQueryEchos db page pageSize search showPrivate).2
      = ((db.echos.filter (matchesEchoQuery search showPrivate)).length : Int) := rfl

theorem dbQueryEchos_items (db : Db) (page pageSize : Int) (search : String)
    (showPrivate : Bool) :
    (dbQueryEchos db page pageSize search showPrivate).1
      = (if 0 ≤ pageSize then
          (if 0 < wrap64 (wrap64 (page - 1) * pageSize) then
            (List.insertionSort byCreatedDesc
              (db.echos.filter (matchesEchoQuery search showPrivate))).drop
                (wrap64 (wrap64 (page - 1) * pageSize)).toNat
           else
            List.insertionSort byCreatedDesc
              (db.echos.filter (matchesEchoQuery search showPrivate))).take pageSize.toNat
         else
          if 0 < wrap64 (wrap64 (page - 1) * pageSize) then
            (List.insertionSort byCreatedDesc
              (db.echos.filter (matchesEchoQuery search showPrivate))).drop
                (wrap64 (wrap64 (page - 1) * pageSize)).toNat
          else
            List.insertionSort byCreatedDesc
              (db.echos.filter (matchesEchoQuery search showPrivate))).map (loadImages db) := rfl

theorem wrap64_eq_self (i : Int) (h1 : -9223372036854775808 ≤ i)
    (h2 : i < 9223372036854775808) : wrap64 i = i := by
  unfold wrap64
  rw [Int.emod_eq_of_lt (by omega) (by omega)]
  omega

/-! ## Claim C1 -/

/-- C1: after a read has populated the page cache, a successful mutation
(create, delete, update or like) purges every registered page-cache key (the
cache group is empty and the tracked-key list is cleared), so a subsequent
identical read recomputes its answer from the durable store; in particular a
create whose stored echo matches the query filter makes the returned total
grow by exactly one. -/
theorem C1_invalidation_correctness :
    ∀ (s : RepoState) (m : EchoMutation) (page pageSize : Int) (search : String)
      (showPrivate : Bool),
      trackedInv s →
      (applyMutation false m (GetEchosByPage s page pageSize search showPrivate).2).2 = none →
      (applyMutation false m (GetEchosByPage s page pageSize search showPrivate).2).1.cache.entries
          = [] ∧
      (applyMutation false m (GetEchosByPage s page pageSize search showPrivate).2).1.echoKeyList
          = [] ∧
      (GetEchosByPage
          (applyMutation false m (GetEchosByPage s page pageSize search showPrivate).2).1
          page pageSize search showPrivate).1
        = dbQueryEchos
            (applyMutation false m (GetEchosByPage s page pageSize search showPrivate).2).1.db
            page pageSize search showPrivate ∧
      (∀ e, m = .create e →
        matchesEchoQuery search showPrivate { e with content := trimSpace e.content } = true →
        (dbQueryEchos
            (applyMutation false m (GetEchosByPage s page pageSize search showPrivate).2).1.db
            page pageSize search showPrivate).2
          = (s.db.echos.countP (matchesEchoQuery search showPrivate) : Int) + 1) := by
  intro s m page pageSize search showPrivate hinv hok
  have hinv1 := trackedInv_GetEchosByPage s page pageSize search showPrivate hinv
  obtain ⟨hent, hkeys⟩ := mutation_ok_purges m _ hinv1 hok
  refine ⟨hent, hkeys, GetEchosByPage_of_empty_cache _ hent page pageSize search showPrivate, ?_⟩
  rintro e rfl hmatch
  have hdb : (applyMutation false (.create e)
        (GetEchosByPage s page pageSize search showPrivate).2).1.db.echos
      = (GetEchosByPage s page pageSize search showPrivate).2.db.echos
        ++ [{ e with content := trimSpace e.content }] := rfl
  rw [dbQueryEchos_total, hdb, GetEchosByPage_db, List.filter_append,
    List.length_append, List.countP_eq_length_filter]
  simp [List.filter_cons, hmatch]

/-- Witness for C1: on an initially empty capacity-1 store, read page 1, create
a public echo, and observe the purged registry. -/
theorem C1_invalidation_correctness_witness :
    trackedInv ⟨⟨[], []⟩, ⟨[], 1⟩, [], 0, 0⟩ ∧
    (applyMutation false (.create ⟨1, "hello", false, 0, "", "", 1, []⟩)
        (GetEchosByPage ⟨⟨[], []⟩, ⟨[], 1⟩, [], 0, 0⟩ 1 10 "" false).2).2 = none ∧
    (applyMutation false (.create ⟨1, "hello", false, 0, "", "", 1, []⟩)
        (GetEchosByPage ⟨⟨[], []⟩, ⟨[], 1⟩, [], 0, 0⟩ 1 10 "" false).2).1.cache.entries = [] ∧
    (applyMutation false (.create ⟨1, "hello", false, 0, "", "", 1, []⟩)
        (GetEchosByPage ⟨⟨[], []⟩, ⟨[], 1⟩, [], 0, 0⟩ 1 10 "" false).2).1.echoKeyList = [] := by
  have hinv : trackedInv ⟨⟨[], []⟩, ⟨[], 1⟩, [], 0, 0⟩ := by
    intro e he
    exact absurd he (List.not_mem_nil e)
  have hok : (applyMutation false (.create ⟨1, "hello", false, 0, "", "", 1, []⟩)
      (GetEchosByPage ⟨⟨[], []⟩, ⟨[], 1⟩, [], 0, 0⟩ 1 10 "" false).2).2 = none := by rfl
  have h := C1_invalidation_correctness ⟨⟨[], []⟩, ⟨[], 1⟩, [], 0, 0⟩
    (.create ⟨1, "hello", false, 0, "", "", 1, []⟩) 1 10 "" false hinv hok
  exact ⟨hinv, hok, h.1, h.2.1⟩

/-! ## Claim C5 -/

/-- C5: once a read has populated the cache (capacity at least the unit cost,
so the best-effort `Set` succeeds) and nothing intervenes, an identical second
read returns exactly the same items and total without issuing any
durable-store query (the query counter does not move). -/
theorem C5_cache_hit_equivalence :
    ∀ (s : RepoState) (page pageSize : Int) (search : String) (showPrivate : Bool),
      1 ≤ s.cache.capacity →
      (GetEchosByPage (GetEchosByPage s page pageSize search showPrivate).2
          page pageSize search showPrivate).1
        = (GetEchosByPage s page pageSize search showPrivate).1 ∧
      (GetEchosByPage (GetEchosByPage s page pageSize search showPrivate).2
          page pageSize search showPrivate).2.dbQueryCount
        = (GetEchosByPage s page pageSize search showPrivate).2.dbQueryCount := by
  intro s page pageSize search showPrivate hcap
  cases hget : s.cache.Get (GetEchoPageCacheKey page pageSize search showPrivate) with
  | some v =>
    rw [GetEchosByPage_hit_shape s page pageSize search showPrivate v hget]
    have hget2 : ({ s with cacheGetCount := s.cacheGetCount + 1 } : RepoState).cache.Get
        (GetEchoPageCacheKey page pageSize search showPrivate) = some v := hget
    rw [GetEchosByPage_hit_shape _ page pageSize search showPrivate v hget2]
    exact ⟨rfl, rfl⟩
  | none =>
    rw [GetEchosByPage_miss_shape s page pageSize search showPrivate hget]
    obtain ⟨c', hc'⟩ := Set_one_ok s.cache (GetEchoPageCacheKey page pageSize search showPrivate)
      ⟨(dbQueryEchos s.db page pageSize search showPrivate).1,
        (dbQueryEchos s.db page pageSize search showPrivate).2⟩ hcap
    simp only [hc']
    have hgetc' : c'.Get (GetEchoPageCacheKey page pageSize search showPrivate)
        = some ⟨(dbQueryEchos s.db page pageSize search showPrivate).1,
                 (dbQueryEchos s.db page pageSize search showPrivate).2⟩ :=
      Get_Set_self _ _ _ _ _ hc'
    rw [GetEchosByPage_hit_shape _ page pageSize search showPrivate _ hgetc']
    exact ⟨rfl, rfl⟩

/-- Witness for C5 on an empty capacity-1 store. -/
theorem C5_cache_hit_equivalence_witness :
    1 ≤ (⟨⟨[], []⟩, ⟨[], 1⟩, [], 0, 0⟩ : RepoState).cache.capacity ∧
    (GetEchosByPage (GetEchosByPage ⟨⟨[], []⟩, ⟨[], 1⟩, [], 0, 0⟩ 1 10 "" false).2
        1 10 "" false).1
      = (GetEchosByPage ⟨⟨[], []⟩, ⟨[], 1⟩, [], 0, 0⟩ 1 10 "" false).1 ∧
    (GetEchosByPage (GetEchosByPage ⟨⟨[], []⟩, ⟨[], 1⟩, [], 0, 0⟩ 1 10 "" false).2
        1 10 "" false).2.dbQueryCount
      = (GetEchosByPage ⟨⟨[], []⟩, ⟨[], 1⟩, [], 0, 0⟩ 1 10 "" false).2.dbQueryCount := by
  have h := C5_cache_hit_equivalence ⟨⟨[], []⟩, ⟨[], 1⟩, [], 0, 0⟩ 1 10 "" false (by decide)
  exact ⟨by decide, h.1, h.2⟩

/-! ## Claim C6 -/

/-- C6 counterexample: the offset multiplication at line 47 is Go `int`
arithmetic and wraps on overflow.  At page = 2 to the 62nd and pageSize = 4
the product wraps to -4, gorm cancels the OFFSET clause and the query returns
the initial rows — not the mathematical window `(page - 1) * pageSize`, which
would be empty on a one-row store. -/
theorem C6_counterexample :
    ¬ (((GetEchosByPage ⟨⟨[⟨1, "a", false, 0, "", "", 1, []⟩], []⟩, ⟨[], 1⟩, [], 0, 0⟩
          4611686018427387904 4 "" false).1).1
      = (((List.insertionSort byCreatedDesc
            ((⟨[⟨1, "a", false, 0, "", "", 1, []⟩], []⟩ : Db).echos.filter
              (matchesEchoQuery "" false))).drop
                (((4611686018427387904 : Int) - 1) * 4).toNat).take ((4 : Int)).toNat).map
          (loadImages ⟨[⟨1, "a", false, 0, "", "", 1, []⟩], []⟩)) := by
  decide

/-- C6 amended: on a cache miss with a valid descriptor whose offset product
`(page - 1) * pageSize` fits in a signed 64-bit int (no Go `int` overflow),
the read windows the sorted matching rows at offset `(page - 1) * pageSize`
with window size `pageSize`, returns as total the count of ALL rows matching
the search and visibility filter (independent of the window), and issues
exactly one durable-store query.  When the product overflows, the wrapped
(possibly negative) offset cancels gorm's OFFSET clause instead. -/
theorem C6_pagination_window_and_total :
    ∀ (s : RepoState) (page pageSize : Int) (search : String) (showPrivate : Bool),
      1 ≤ page → 1 ≤ pageSize → (page - 1) * pageSize < 2 ^ 63 →
      s.cache.Get (GetEchoPageCacheKey page pageSize search showPrivate) = none →
      ((GetEchosByPage s page pageSize search showPrivate).1).2
        = (s.db.echos.countP (matchesEchoQuery search showPrivate) : Int) ∧
      ((GetEchosByPage s page pageSize search showPrivate).1).1
        = (((List.insertionSort byCreatedDesc
              (s.db.echos.filter (matchesEchoQuery search showPrivate))).drop
                ((page - 1) * pageSize).toNat).take pageSize.toNat).map (loadImages s.db) ∧
      (GetEchosByPage s page pageSize search showPrivate).2.dbQueryCount = s.dbQueryCount + 1 := by
  intro s page pageSize search showPrivate hp hps hbound hmiss
  have h63 : (2 : Int) ^ 63 = 9223372036854775808 := by norm_num
  rw [h63] at hbound
  have hle : page - 1 ≤ (page - 1) * pageSize := le_mul_of_one_le_right (by omega) hps
  have hnn : 0 ≤ (page - 1) * pageSize := mul_nonneg (by omega) (by omega)
  have hw1 : wrap64 (page - 1) = page - 1 := wrap64_eq_self _ (by omega) (by omega)
  have hw2 : wrap64 ((page - 1) * pageSize) = (page - 1) * pageSize :=
    wrap64_eq_self _ (by omega) (by omega)
  rw [GetEchosByPage_miss_shape s page pageSize search showPrivate hmiss]
  refine ⟨?_, ?_, rfl⟩
  · rw [dbQueryEchos_total, List.countP_eq_length_filter]
  · rw [dbQueryEchos_items, hw1, hw2, if_pos (by omega : (0:Int) ≤ pageSize)]
    by_cases h0 : (0:Int) < (page - 1) * pageSize
    · rw [if_pos h0]
    · rw [if_neg h0]
      have hz : (page - 1) * pageSize = 0 := by omega
      rw [hz]
      simp

/-- Witness for C6 on a two-echo store (one private) with an empty cache. -/
theorem C6_pagination_window_and_total_witness :
    ((1:Int) ≤ 1 ∧ (1:Int) ≤ 10 ∧ ((1:Int) - 1) * 10 < 2 ^ 63) ∧
    (⟨⟨[⟨1, "a", false, 0, "", "", 1, []⟩, ⟨2, "b", true, 0, "", "", 2, []⟩], []⟩,
        ⟨[], 1⟩, [], 0, 0⟩ : RepoState).cache.Get (GetEchoPageCacheKey 1 10 "" false) = none ∧
    ((GetEchosByPage ⟨⟨[⟨1, "a", false, 0, "", "", 1, []⟩, ⟨2, "b", true, 0, "", "", 2, []⟩], []⟩,
        ⟨[], 1⟩, [], 0, 0⟩ 1 10 "" false).1).2
      = ((⟨⟨[⟨1, "a", false, 0, "", "", 1, []⟩, ⟨2, "b", true, 0, "", "", 2, []⟩], []⟩,
          ⟨[], 1⟩, [], 0, 0⟩ : RepoState).db.echos.countP (matchesEchoQuery "" false) : Int) ∧
    (GetEchosByPage ⟨⟨[⟨1, "a", false, 0, "", "", 1, []⟩, ⟨2, "b", true, 0, "", "", 2, []⟩], []⟩,
        ⟨[], 1⟩, [], 0, 0⟩ 1 10 "" false).2.dbQueryCount = 1 := by
  have h := C6_pagination_window_and_total
    ⟨⟨[⟨1, "a", false, 0, "", "", 1, []⟩, ⟨2, "b", true, 0, "", "", 2, []⟩], []⟩, ⟨[], 1⟩, [], 0, 0⟩
    1 10 "" false (by decide) (by decide) (by norm_num) (by rfl)
  exact ⟨⟨by decide, by decide, by norm_num⟩, by rfl, h.1, h.2.2⟩

/-! ## Claim C2 -/

/-- C2 counterexample: the tracked-key collection is NOT a duplicate-free set
and tracking an already-tracked key does NOT leave it unchanged.  On a
capacity-1 store, read page 1, then page 2 (which evicts page 1's entry while
its key stays tracked), then page 1 again: the third read misses and appends
the already-tracked key a second time, leaving a duplicated key list. -/
theorem C2_counterexample :
    ((GetEchosByPage (GetEchosByPage (GetEchosByPage
        ⟨⟨[], []⟩, ⟨[], 1⟩, [], 0, 0⟩ 1 1 "" false).2 2 1 "" false).2 1 1 "" false).2).echoKeyList
      = [GetEchoPageCacheKey 1 1 "" false, GetEchoPageCacheKey 2 1 "" false,
         GetEchoPageCacheKey 1 1 "" false] ∧
    ¬ ((GetEchosByPage (GetEchosByPage (GetEchosByPage
        ⟨⟨[], []⟩, ⟨[], 1⟩, [], 0, 0⟩ 1 1 "" false).2 2 1 "" false).2
          1 1 "" false).2).echoKeyList.Nodup := by
  constructor
  · rfl
  · decide

/-- C2 amended: the registry is an append-only list, not a deduplicated set
(a miss appends its key even when already tracked, so duplicates accumulate
after an eviction); what does hold is that every resident page-cache entry's
key is always tracked (reads preserve this invariant), and that the purge
clears the membership list and, under the invariant, empties the cache group.
-/
theorem C2_amended_registry_props :
    ∀ (s : RepoState) (page pageSize : Int) (search : String) (showPrivate : Bool),
      trackedInv s →
      trackedInv (GetEchosByPage s page pageSize search showPrivate).2 ∧
      (ClearEchoPageCache s.cache s.echoKeyList).2 = [] ∧
      (ClearEchoPageCache s.cache s.echoKeyList).1.entries = [] := by
  intro s page pageSize search showPrivate hinv
  exact ⟨trackedInv_GetEchosByPage s page pageSize search showPrivate hinv, rfl,
    foldl_delete_entries_nil _ _ hinv⟩

/-- Witness for the amended C2 on a store with one tracked resident entry. -/
theorem C2_amended_registry_props_witness :
    trackedInv ⟨⟨[], []⟩, ⟨[⟨"k", ⟨[], 0⟩, 1⟩], 10⟩, ["k"], 0, 0⟩ ∧
    trackedInv (GetEchosByPage ⟨⟨[], []⟩, ⟨[⟨"k", ⟨[], 0⟩, 1⟩], 10⟩, ["k"], 0, 0⟩
        1 10 "" false).2 ∧
    (ClearEchoPageCache (⟨⟨[], []⟩, ⟨[⟨"k", ⟨[], 0⟩, 1⟩], 10⟩, ["k"], 0, 0⟩ : RepoState).cache
        ["k"]).2 = [] ∧
    (ClearEchoPageCache (⟨⟨[], []⟩, ⟨[⟨"k", ⟨[], 0⟩, 1⟩], 10⟩, ["k"], 0, 0⟩ : RepoState).cache
        ["k"]).1.entries = [] := by
  have hinv : trackedInv ⟨⟨[], []⟩, ⟨[⟨"k", ⟨[], 0⟩, 1⟩], 10⟩, ["k"], 0, 0⟩ := by
    intro e he
    simp only [List.mem_singleton] at he
    subst he
    exact List.mem_cons_self _ _
  have h := C2_amended_registry_props ⟨⟨[], []⟩, ⟨[⟨"k", ⟨[], 0⟩, 1⟩], 10⟩, ["k"], 0, 0⟩
    1 10 "" false hinv
  exact ⟨hinv, h.1, h.2.1, h.2.2⟩

/-! ## Claim C3 -/

/-- C3 counterexample: `UpdateEcho` purges the page cache BEFORE the durable
mutation (src/unnamed/part_000 line 151), so a failing update still purges:
starting from a store with one resident tracked entry, the injected durable
failure returns an error, yet the cache group has been emptied. -/
theorem C3_counterexample :
    (UpdateEcho true ⟨1, "x", false, 0, "", "", 1, []⟩
        ⟨⟨[], []⟩, ⟨[⟨"k", ⟨[], 0⟩, 1⟩], 10⟩, ["k"], 0, 0⟩).2 = some .dbError ∧
    (UpdateEcho true ⟨1, "x", false, 0, "", "", 1, []⟩
        ⟨⟨[], []⟩, ⟨[⟨"k", ⟨[], 0⟩, 1⟩], 10⟩, ["k"], 0, 0⟩).1.cache.entries = [] ∧
    (⟨⟨[], []⟩, ⟨[⟨"k", ⟨[], 0⟩, 1⟩], 10⟩, ["k"], 0, 0⟩ : RepoState).cache.entries ≠ [] := by
  refine ⟨rfl, rfl, ?_⟩
  decide

/-- C3 amended: for create, delete and like the purge happens only after the
durable mutation succeeded — an injected durable failure (or a not-found
delete/like) returns the error with the cache and tracked keys untouched,
while success purges the group; `UpdateEcho` alone purges unconditionally
before its transaction, so its cache group is empty even when the mutation
fails. -/
theorem C3_amended_purge_ordering :
    ∀ (s : RepoState) (e : Echo) (id : Nat),
      trackedInv s →
      CreateEcho true e s = (s, some .dbError) ∧
      ((DeleteEchoById true id s).1.cache = s.cache ∧
        (DeleteEchoById true id s).1.echoKeyList = s.echoKeyList ∧
        (DeleteEchoById true id s).2 = some .dbError) ∧
      LikeEcho true id s = (s, some .dbError) ∧
      ((LikeEcho false id s).2 = some .echoNotFound → (LikeEcho false id s).1 = s) ∧
      ((DeleteEchoById false id s).2 = some .recordNotFound →
        (DeleteEchoById false id s).1.cache = s.cache ∧
        (DeleteEchoById false id s).1.echoKeyList = s.echoKeyList) ∧
      ((CreateEcho false e s).1.cache.entries = [] ∧ (CreateEcho false e s).2 = none) ∧
      ((DeleteEchoById false id s).2 = none → (DeleteEchoById false id s).1.cache.entries = []) ∧
      ((LikeEcho false id s).2 = none → (LikeEcho false id s).1.cache.entries = []) ∧
      ((UpdateEcho true e s).1.cache.entries = [] ∧ (UpdateEcho true e s).2 = some .dbError) ∧
      ((UpdateEcho false e s).1.cache.entries = [] ∧ (UpdateEcho false e s).2 = none) := by
  intro s e id hinv
  have hpurge := foldl_delete_entries_nil s.echoKeyList s.cache hinv
  by_cases hcond : (s.db.echos.all fun x => x.id != id) = true
  · refine ⟨rfl, ⟨rfl, rfl, rfl⟩, rfl, ?_, ?_, ⟨hpurge, rfl⟩, ?_, ?_, ⟨hpurge, rfl⟩,
      ⟨hpurge, rfl⟩⟩
    · intro _
      simp [LikeEcho, hcond]
    · intro _
      simp [DeleteEchoById, hcond]
    · intro hnone
      exfalso
      simp [DeleteEchoById, hcond] at hnone
    · intro hnone
      exfalso
      simp [LikeEcho, hcond] at hnone
  · refine ⟨rfl, ⟨rfl, rfl, rfl⟩, rfl, ?_, ?_, ⟨hpurge, rfl⟩, ?_, ?_, ⟨hpurge, rfl⟩,
      ⟨hpurge, rfl⟩⟩
    · intro habs
      exfalso
      simp [LikeEcho, hcond] at habs
    · intro habs
      exfalso
      simp [DeleteEchoById, hcond] at habs
    · intro _
      simp [DeleteEchoById, hcond, ClearEchoPageCache]
      exact hpurge
    · intro _
      simp [LikeEcho, hcond, ClearEchoPageCache]
      exact hpurge

/-- Witness for the amended C3 on a store with one tracked resident entry and
an echo present under id 1 but not id 2. -/
theorem C3_amended_purge_ordering_witness :
    trackedInv ⟨⟨[⟨1, "a", false, 0, "", "", 1, []⟩], []⟩, ⟨[⟨"k", ⟨[], 0⟩, 1⟩], 10⟩,
      ["k"], 0, 0⟩ ∧
    CreateEcho true ⟨2, "b", false, 0, "", "", 2, []⟩
        ⟨⟨[⟨1, "a", false, 0, "", "", 1, []⟩], []⟩, ⟨[⟨"k", ⟨[], 0⟩, 1⟩], 10⟩, ["k"], 0, 0⟩
      = (⟨⟨[⟨1, "a", false, 0, "", "", 1, []⟩], []⟩, ⟨[⟨"k", ⟨[], 0⟩, 1⟩], 10⟩, ["k"], 0, 0⟩,
         some .dbError) ∧
    (UpdateEcho false ⟨1, "c", false, 0, "", "", 1, []⟩
        ⟨⟨[⟨1, "a", false, 0, "", "", 1, []⟩], []⟩, ⟨[⟨"k", ⟨[], 0⟩, 1⟩], 10⟩,
          ["k"], 0, 0⟩).1.cache.entries = [] := by
  have hinv : trackedInv ⟨⟨[⟨1, "a", false, 0, "", "", 1, []⟩], []⟩,
      ⟨[⟨"k", ⟨[], 0⟩, 1⟩], 10⟩, ["k"], 0, 0⟩ := by
    intro x hx
    simp only [List.mem_singleton] at hx
    subst hx
    exact List.mem_cons_self _ _
  have h := C3_amended_purge_ordering ⟨⟨[⟨1, "a", false, 0, "", "", 1, []⟩], []⟩,
    ⟨[⟨"k", ⟨[], 0⟩, 1⟩], 10⟩, ["k"], 0, 0⟩ ⟨2, "b", false, 0, "", "", 2, []⟩ 2 hinv
  exact ⟨hinv, h.1, (C3_amended_purge_ordering _ ⟨1, "c", false, 0, "", "", 1, []⟩ 1 hinv).2.2.2.2.2.2.2.2.2.1⟩

end Ech0
